import Mathlib

/-!
# Verification of the encrypted Game-of-Life engine (`src/main.rs`)

Shallow embedding of the TFHE-shortint Game-of-Life implementation.

A shortint ciphertext is modelled by the plaintext value it decrypts to
(a natural number tracked exactly while it stays inside the plaintext
space `message_modulus * carry_modulus`); the homomorphic operations used
by the program (`unchecked_add`, `scalar_mul`, `apply_lookup_table`) are
modelled by their plaintext semantics.  A Rust `panic!` / failed `assert!`
is modelled by `Except.error`.
-/

/-- The two ways the program aborts: the dispatcher's
`panic!("not supported")` for an unrecognized parameter regime, and the
`assert!` at the top of `is_alive_5b`. -/
inductive FheError where
  | UnsupportedParameterRegime : FheError
  | AssertionFailed : FheError
deriving DecidableEq, Repr

/-- The fields of `tfhe::shortint::ServerKey` the program inspects:
`message_modulus` and `carry_modulus` (`src/main.rs` lines 12, 78). -/
structure ServerKey where
  message_modulus : Nat
  carry_modulus : Nat
deriving DecidableEq, Repr

/-- Plaintext capacity of the parameter regime: the size of the usable
plaintext space, `message_modulus * carry_modulus`. -/
def ServerKey.capacity (sks : ServerKey) : Nat :=
  sks.message_modulus * sks.carry_modulus

/-- `sks.apply_lookup_table(ct, &lut)` where `lut = generate_lookup_table(f)`:
the table is applied to the plaintext modulo the plaintext capacity and its
output lives in the same plaintext space. -/
def apply_lookup_table (sks : ServerKey) (f : Nat → Nat) (ct : Nat) : Nat :=
  f (ct % sks.capacity) % sks.capacity

/-- `sks.scalar_mul(ct, k)`: plaintext multiplication by a clear scalar. -/
def scalar_mul (ct : Nat) (k : Nat) : Nat :=
  ct * k

/-- Decryption of a shortint ciphertext: the message part of the plaintext. -/
def decrypt (sks : ServerKey) (ct : Nat) : Nat :=
  ct % sks.message_modulus

/-- The accumulation `let mut n = neighbours[0].clone(); for n in
neighbours[1..] { unchecked_add_assign }` from `is_alive_4b` / `is_alive_5b`.
(`neighbours[0]` on an empty slice would panic; callers always pass 8.) -/
def neighbourSum (neighbours : List Nat) : Nat :=
  match neighbours with
  | [] => 0
  | n0 :: rest => rest.foldl (fun acc n => acc + n) n0

/-- First lookup table of `is_alive_4b`: collapse a neighbour sum of 2 or 3
to the marker `x - 1`, everything else to 0 (`src/main.rs` lines 45-51). -/
def lut1_4b (x : Nat) : Nat :=
  if x = 2 ∨ x = 3 then x - 1 else 0

/-- Second lookup table of `is_alive_4b`: fold marker + cell into the final
boolean (`src/main.rs` lines 56-70). -/
def lut2_4b (x : Nat) : Nat :=
  if x = 2 ∨ x = 3 then 1 else 0

/-- `is_alive_4b` (`src/main.rs` lines 39-75): sum the 8 neighbours, apply
the marker table, add the cell, apply the folding table. -/
def is_alive_4b (sks : ServerKey) (cell : Nat) (neighbours : List Nat) :
    Nat :=
  let num := neighbourSum neighbours
  let num := apply_lookup_table sks lut1_4b num
  let num := num + cell
  apply_lookup_table sks lut2_4b num

/-- The packed lookup table of `is_alive_5b` (`src/main.rs` lines 88-92):
split `x` into `cell = x / factor` and `num_n = x % factor` and compute the
survival rule directly. -/
def lut_5b (factor : Nat) (x : Nat) : Nat :=
  let cell := x / factor
  let num_n := x % factor
  if num_n = 3 ∨ (cell = 1 ∧ num_n = 2) then 1 else 0

/-- `is_alive_5b` (`src/main.rs` lines 77-94): assert capacity ≥ 32, sum the
8 neighbours, pack the cell into the high digit via `scalar_mul(cell, 16)`,
apply the single fused table.  The failed `assert!` is an error. -/
def is_alive_5b (sks : ServerKey) (cell : Nat) (neighbours : List Nat) :
    Except FheError Nat :=
  if 32 ≤ sks.message_modulus * sks.carry_modulus then
    let num := neighbourSum neighbours
    let factor := 16
    let shifted_cell := scalar_mul cell factor
    let num := num + shifted_cell
    .ok (apply_lookup_table sks (lut_5b factor) num)
  else
    .error .AssertionFailed

/-- `is_alive` (`src/main.rs` lines 11-32): dispatch on the parameter regime
`(message_modulus, carry_modulus)`; an unrecognized pair panics
(`panic!("not supported")`). -/
def is_alive (sks : ServerKey) (cell : Nat) (neighbours : List Nat) :
    Except FheError Nat :=
  if sks.message_modulus = 16 ∧ sks.carry_modulus = 1 then
    .ok (is_alive_4b sks cell neighbours)
  else if sks.message_modulus = 2 ∧ sks.carry_modulus = 8 then
    .ok (is_alive_4b sks cell neighbours)
  else if sks.message_modulus = 2 ∧ sks.carry_modulus = 16 then
    is_alive_5b sks cell neighbours
  else if sks.message_modulus = 16 ∧ sks.carry_modulus = 2 then
    is_alive_5b sks cell neighbours
  else if sks.message_modulus = 32 ∧ sks.carry_modulus = 1 then
    is_alive_5b sks cell neighbours
  else
    .error .UnsupportedParameterRegime

/-- The five parameter regimes the dispatcher `is_alive` recognizes. -/
def ServerKey.supported (sks : ServerKey) : Prop :=
  sks = ⟨16, 1⟩ ∨ sks = ⟨2, 8⟩ ∨ sks = ⟨2, 16⟩ ∨ sks = ⟨16, 2⟩ ∨ sks = ⟨32, 1⟩

instance (sks : ServerKey) : Decidable sks.supported := by
  unfold ServerKey.supported; infer_instance

/-- `i == 0 ? n - 1 : i - 1` — the decrementing toroidal wrap used for
`im` and `jm` in `Board::update` (`src/main.rs` lines 131, 134). -/
def wrapDec (n i : Nat) : Nat :=
  if i = 0 then n - 1 else i - 1

/-- `i == n - 1 ? 0 : i + 1` — the incrementing toroidal wrap used for
`ip` and `jp` in `Board::update` (`src/main.rs` lines 132, 135). -/
def wrapInc (n i : Nat) : Nat :=
  if i = n - 1 then 0 else i + 1

/-- The eight neighbour coordinates `n1 .. n8` gathered by `Board::update`
(`src/main.rs` lines 138-145), in source order. -/
def neighbourIndices (nx ny i j : Nat) : List (Nat × Nat) :=
  let im := wrapDec nx i
  let ip := wrapInc nx i
  let jm := wrapDec ny j
  let jp := wrapInc ny j
  [(im, jm), (im, j), (im, jp), (i, jm), (i, jp), (ip, jm), (ip, j), (ip, jp)]

/-- `itertools::iproduct!(0..n_rows, 0..n_cols)` — the row-major list of
cell coordinates stored in `Board.indices` (`src/main.rs` line 115). -/
def gridIndices (n_rows n_cols : Nat) : List (Nat × Nat) :=
  (List.range n_rows).flatMap (fun i => (List.range n_cols).map (fun j => (i, j)))

/-- The `Board` struct (`src/main.rs` lines 97-104). -/
structure Board where
  dimensions : Nat × Nat
  states : List Nat
  new_states : List Nat
  indices : List (Nat × Nat)
  sks : ServerKey
deriving Repr

/-- `Board::new` (`src/main.rs` lines 107-118): `n_rows` is the truncating
division `states.len() / n_cols`; no length check is performed.
(In Rust `n_cols = 0` would panic on division by zero; theorems about
`Board.new` therefore carry a `0 < n_cols` hypothesis.) -/
def Board.new (n_cols : Nat) (states : List Nat) (sks : ServerKey) : Board :=
  let n_rows := states.length / n_cols
  { dimensions := (n_rows, n_cols)
    states := states
    new_states := []
    indices := gridIndices n_rows n_cols
    sks := sks }

/-- `List.mapM` specialised to `Except`, written by structural recursion:
computes `f` on every element in order, propagating the first panic.
This models `par_iter().map(..).collect_into_vec(..)`: the results land in
index order and any panic aborts the whole update. -/
def mapExcept (f : α → Except ε β) : List α → Except ε (List β)
  | [] => .ok []
  | a :: as =>
    match f a with
    | .error e => .error e
    | .ok b =>
      match mapExcept f as with
      | .error e => .error e
      | .ok bs => .ok (b :: bs)

/-- `Board::update` (`src/main.rs` lines 120-186): for every `(i, j)` in
`indices`, gather the 8 toroidal neighbours from the generation-`n` buffer
`states`, run `is_alive`, collect the results into `new_states`, then
`std::mem::swap(&mut self.new_states, &mut self.states)`.
(Rust indexing would panic out of bounds; all reachable accesses are in
bounds, and the model uses `getD _ 0`.) -/
def Board.update (b : Board) : Except FheError Board :=
  let nx := b.dimensions.1
  let ny := b.dimensions.2
  (mapExcept (fun p =>
      is_alive b.sks (b.states.getD (p.1 * ny + p.2) 0)
        ((neighbourIndices nx ny p.1 p.2).map
          (fun q => b.states.getD (q.1 * ny + q.2) 0)))
    b.indices).map
    (fun computed => { b with states := computed, new_states := b.states })

/-- `N` successive calls to `board.update()` (the loop in `main`);
a panicking update aborts the run. -/
def Board.updateN : Nat → Board → Except FheError Board
  | 0, b => .ok b
  | n + 1, b =>
    match b.update with
    | .error e => .error e
    | .ok b' => Board.updateN n b'

/-- The plaintext survival rule the spec states:
`alive' = (count == 3) OR (cell AND count == 2)`. -/
def lifeRule (cell count : Nat) : Nat :=
  if count = 3 ∨ (cell = 1 ∧ count = 2) then 1 else 0

/-- The parameter regime `main` selects: `PARAM_MESSAGE_4_CARRY_1_KS_PBS`,
i.e. `message_modulus = 16`, `carry_modulus = 2` (`src/main.rs` line 200). -/
def mainParams : ServerKey := ⟨16, 2⟩

/-- The 6×6 initial configuration hard-coded in `main`
(`src/main.rs` lines 207-214): alive cells `{(0,0),(1,1),(1,2),(2,0),(2,1)}`. -/
def initialPattern : List Nat :=
  [1, 0, 0, 0, 0, 0,
   0, 1, 1, 0, 0, 0,
   1, 1, 0, 0, 0, 0,
   0, 0, 0, 0, 0, 0,
   0, 0, 0, 0, 0, 0,
   0, 0, 0, 0, 0, 0]

/-- Independent plaintext reference, following the spec's words: one step of
the standard Game-of-Life rule on an `R × C` board with toroidal wraparound,
row index wrapping via `(row + R - 1) % R` / `(row + 1) % R` and analogously
for columns. -/
def plainLifeStep (R C : Nat) (g : List Nat) : List Nat :=
  (List.range (R * C)).map (fun k =>
    let i := k / C
    let j := k % C
    let up := (i + R - 1) % R
    let down := (i + 1) % R
    let left := (j + C - 1) % C
    let right := (j + 1) % C
    let at' := fun (a b : Nat) => g.getD (a * C + b) 0
    let count := at' up left + at' up j + at' up right + at' i left + at' i right
      + at' down left + at' down j + at' down right
    lifeRule (at' i j) count)

/-! ## Helper lemmas -/

theorem apply_lookup_table_eq (sks : ServerKey) (f : Nat → Nat) (x : Nat)
    (hx : x < sks.capacity) (hf : f x < sks.capacity) :
    apply_lookup_table sks f x = f x := by
  unfold apply_lookup_table
  rw [Nat.mod_eq_of_lt hx, Nat.mod_eq_of_lt hf]

theorem lut1_4b_le (x : Nat) : lut1_4b x ≤ 2 := by
  unfold lut1_4b; split <;> omega

theorem lut2_4b_le (x : Nat) : lut2_4b x ≤ 1 := by
  unfold lut2_4b; split <;> omega

theorem lut_5b_le (factor x : Nat) : lut_5b factor x ≤ 1 := by
  show (if x % factor = 3 ∨ x / factor = 1 ∧ x % factor = 2 then 1 else 0) ≤ 1
  split <;> omega

theorem lifeRule_le (cell count : Nat) : lifeRule cell count ≤ 1 := by
  unfold lifeRule; split <;> omega

theorem foldl_add_le (l : List Nat) (hl : ∀ n ∈ l, n ≤ 1) :
    ∀ a : Nat, l.foldl (fun acc n => acc + n) a ≤ a + l.length := by
  induction l with
  | nil => intro a; simp
  | cons x xs ih =>
    intro a
    have hx : x ≤ 1 := hl x (List.mem_cons_self _ _)
    have := ih (fun n hn => hl n (List.mem_cons_of_mem _ hn)) (a + x)
    simp only [List.foldl_cons, List.length_cons]
    omega

theorem neighbourSum_le_length (l : List Nat) (hl : ∀ n ∈ l, n ≤ 1) :
    neighbourSum l ≤ l.length := by
  cases l with
  | nil => exact Nat.le_refl 0
  | cons n0 rest =>
    have h0 : n0 ≤ 1 := hl n0 (List.mem_cons_self _ _)
    have h := foldl_add_le rest (fun n hn => hl n (List.mem_cons_of_mem _ hn)) n0
    show List.foldl (fun acc n => acc + n) n0 rest ≤ (n0 :: rest).length
    simp only [List.length_cons]
    omega

/-- Core correctness of `is_alive_4b`: with a plaintext capacity of at least
16, a cell in `{0,1}` and a neighbour sum at most 8, the two-table marker
computation equals the survival rule. -/
theorem is_alive_4b_eq_lifeRule (sks : ServerKey) (cell : Nat)
    (neighbours : List Nat) (hcap : 16 ≤ sks.capacity) (hcell : cell ≤ 1)
    (hsum : neighbourSum neighbours ≤ 8) :
    is_alive_4b sks cell neighbours = lifeRule cell (neighbourSum neighbours) := by
  have hs1 : neighbourSum neighbours < sks.capacity := by omega
  have hf1 : lut1_4b (neighbourSum neighbours) < sks.capacity :=
    Nat.lt_of_le_of_lt (lut1_4b_le _) (by omega)
  have heq1 : apply_lookup_table sks lut1_4b (neighbourSum neighbours) =
      lut1_4b (neighbourSum neighbours) :=
    apply_lookup_table_eq sks lut1_4b (neighbourSum neighbours) hs1 hf1
  have hs2 : apply_lookup_table sks lut1_4b (neighbourSum neighbours) + cell <
      sks.capacity := by
    rw [heq1]
    have := lut1_4b_le (neighbourSum neighbours)
    omega
  have hf2 : lut2_4b (apply_lookup_table sks lut1_4b (neighbourSum neighbours) + cell) <
      sks.capacity :=
    Nat.lt_of_le_of_lt (lut2_4b_le _) (by omega)
  show apply_lookup_table sks lut2_4b
      (apply_lookup_table sks lut1_4b (neighbourSum neighbours) + cell) = _
  rw [apply_lookup_table_eq sks lut2_4b _ hs2 hf2, heq1]
  unfold lut1_4b lut2_4b lifeRule
  split_ifs <;> omega

/-- Core correctness of `is_alive_5b`: with a plaintext capacity of at least
32, a cell in `{0,1}` and a neighbour sum at most 8, the packed single-table
computation succeeds and equals the survival rule. -/
theorem is_alive_5b_eq_lifeRule (sks : ServerKey) (cell : Nat)
    (neighbours : List Nat) (hcap : 32 ≤ sks.capacity) (hcell : cell ≤ 1)
    (hsum : neighbourSum neighbours ≤ 8) :
    is_alive_5b sks cell neighbours = .ok (lifeRule cell (neighbourSum neighbours)) := by
  have hcap' : 32 ≤ sks.message_modulus * sks.carry_modulus := hcap
  show (if 32 ≤ sks.message_modulus * sks.carry_modulus then
      Except.ok (apply_lookup_table sks (lut_5b 16)
        (neighbourSum neighbours + scalar_mul cell 16))
    else Except.error FheError.AssertionFailed) = _
  rw [if_pos hcap']
  have hx : neighbourSum neighbours + scalar_mul cell 16 < sks.capacity := by
    show neighbourSum neighbours + cell * 16 < sks.message_modulus * sks.carry_modulus
    omega
  have hfx : lut_5b 16 (neighbourSum neighbours + scalar_mul cell 16) < sks.capacity :=
    Nat.lt_of_le_of_lt (lut_5b_le _ _) (Nat.lt_of_lt_of_le (by omega) hcap)
  rw [apply_lookup_table_eq sks (lut_5b 16) _ hx hfx]
  show Except.ok (lut_5b 16 (neighbourSum neighbours + cell * 16)) = _
  have hdiv : (neighbourSum neighbours + cell * 16) / 16 = cell := by omega
  have hmod : (neighbourSum neighbours + cell * 16) % 16 = neighbourSum neighbours := by
    omega
  show Except.ok (if (neighbourSum neighbours + cell * 16) % 16 = 3 ∨
      (neighbourSum neighbours + cell * 16) / 16 = 1 ∧
      (neighbourSum neighbours + cell * 16) % 16 = 2 then 1 else 0) = _
  rw [hdiv, hmod]
  rfl

theorem supported_capacity (sks : ServerKey) (hs : sks.supported) :
    16 ≤ sks.capacity ∧ 2 ≤ sks.message_modulus := by
  rcases hs with rfl | rfl | rfl | rfl | rfl <;> exact ⟨by decide, by decide⟩

/-- Dispatch correctness: on every supported regime, `is_alive` succeeds and
computes the survival rule. -/
theorem is_alive_supported_eq (sks : ServerKey) (cell : Nat)
    (neighbours : List Nat) (hs : sks.supported) (hcell : cell ≤ 1)
    (hsum : neighbourSum neighbours ≤ 8) :
    is_alive sks cell neighbours = .ok (lifeRule cell (neighbourSum neighbours)) := by
  rcases hs with rfl | rfl | rfl | rfl | rfl
  · have h : is_alive ⟨16, 1⟩ cell neighbours =
        Except.ok (is_alive_4b ⟨16, 1⟩ cell neighbours) := rfl
    rw [h, is_alive_4b_eq_lifeRule _ _ _ (by decide) hcell hsum]
  · have h : is_alive ⟨2, 8⟩ cell neighbours =
        Except.ok (is_alive_4b ⟨2, 8⟩ cell neighbours) := rfl
    rw [h, is_alive_4b_eq_lifeRule _ _ _ (by decide) hcell hsum]
  · have h : is_alive ⟨2, 16⟩ cell neighbours = is_alive_5b ⟨2, 16⟩ cell neighbours := rfl
    rw [h]; exact is_alive_5b_eq_lifeRule _ _ _ (by decide) hcell hsum
  · have h : is_alive ⟨16, 2⟩ cell neighbours = is_alive_5b ⟨16, 2⟩ cell neighbours := rfl
    rw [h]; exact is_alive_5b_eq_lifeRule _ _ _ (by decide) hcell hsum
  · have h : is_alive ⟨32, 1⟩ cell neighbours = is_alive_5b ⟨32, 1⟩ cell neighbours := rfl
    rw [h]; exact is_alive_5b_eq_lifeRule _ _ _ (by decide) hcell hsum

theorem gridIndices_length (R C : Nat) : (gridIndices R C).length = R * C := by
  induction R with
  | zero => simp [gridIndices]
  | succ n ih =>
    unfold gridIndices at ih ⊢
    rw [List.range_succ, List.flatMap_append, List.length_append, ih]
    simp [Nat.succ_mul]

theorem gridIndices_getD (R C k : Nat) (hk : k < R * C) :
    (gridIndices R C).getD k (0, 0) = (k / C, k % C) := by
  induction R with
  | zero => omega
  | succ n ih =>
    have hsplit : gridIndices (n + 1) C =
        gridIndices n C ++ (List.range C).map (fun j => (n, j)) := by
      unfold gridIndices
      rw [List.range_succ, List.flatMap_append]
      simp
    rw [hsplit]
    by_cases hk' : k < n * C
    · rw [List.getD_append _ _ _ _ (by rw [gridIndices_length]; exact hk')]
      exact ih hk'
    · have hC : 0 < C := by
        rcases Nat.eq_zero_or_pos C with rfl | hC
        · omega
        · exact hC
      have hlen : (gridIndices n C).length = n * C := gridIndices_length n C
      have hge : n * C ≤ k := Nat.le_of_not_lt hk'
      have hlt : k - n * C < C := by
        have h2 : (n + 1) * C = n * C + C := by ring
        omega
      rw [List.getD_append_right _ _ _ _ (by omega)]
      have hmap : ((List.range C).map (fun j => (n, j))).getD (k - n * C) (0, 0) = (n, k - n * C) := by
        have h1 : ((List.range C).map (fun j => (n, j))).getD (k - n * C) (0, 0) =
            ((List.range C).map (fun j => (n, j)))[k - n * C]?.getD (0, 0) := by
          rw [List.getD_eq_getElem?_getD]
        rw [h1, List.getElem?_map, List.getElem?_range hlt]
        rfl
      rw [hlen, hmap]
      have hk2 : k = (k - n * C) + n * C := by omega
      have hdiv : k / C = n := by
        conv_lhs => rw [hk2]
        rw [Nat.add_mul_div_right _ _ hC, Nat.div_eq_of_lt hlt, Nat.zero_add]
      have hmod : k % C = k - n * C := by
        conv_lhs => rw [hk2]
        rw [Nat.add_mul_mod_self_right, Nat.mod_eq_of_lt hlt]
      rw [hdiv, hmod]

theorem flat_index_lt (R C i j : Nat) (hi : i < R) (hj : j < C) :
    i * C + j < R * C := by
  calc i * C + j < i * C + C := by omega
    _ = (i + 1) * C := by rw [Nat.succ_mul]
    _ ≤ R * C := Nat.mul_le_mul_right C hi

theorem gridIndices_getD_pair (R C i j : Nat) (hi : i < R) (hj : j < C) :
    (gridIndices R C).getD (i * C + j) (0, 0) = (i, j) := by
  rw [gridIndices_getD R C _ (flat_index_lt R C i j hi hj)]
  have hC : 0 < C := by omega
  have hdiv : (i * C + j) / C = i := by
    rw [Nat.add_comm, Nat.add_mul_div_right _ _ hC, Nat.div_eq_of_lt hj, Nat.zero_add]
  have hmod : (i * C + j) % C = j := by
    rw [Nat.add_comm, Nat.add_mul_mod_self_right, Nat.mod_eq_of_lt hj]
  rw [hdiv, hmod]

theorem mapExcept_ok_length {α β ε : Type} (f : α → Except ε β) :
    ∀ (l : List α) (res : List β), mapExcept f l = .ok res → res.length = l.length := by
  intro l
  induction l with
  | nil =>
    intro res h
    simp only [mapExcept] at h
    cases h
    rfl
  | cons a as ih =>
    intro res h
    simp only [mapExcept] at h
    cases hfa : f a with
    | error e => rw [hfa] at h; exact absurd h (by simp)
    | ok b =>
      rw [hfa] at h
      cases hrec : mapExcept f as with
      | error e => rw [hrec] at h; exact absurd h (by simp)
      | ok bs =>
        rw [hrec] at h
        cases h
        simp [ih bs hrec]

theorem mapExcept_ok_getD {α β ε : Type} (f : α → Except ε β) (d : α) (d' : β) :
    ∀ (l : List α) (res : List β), mapExcept f l = .ok res →
      ∀ k, k < l.length → f (l.getD k d) = .ok (res.getD k d') := by
  intro l
  induction l with
  | nil => intro res _ k hk; simp at hk
  | cons a as ih =>
    intro res h k hk
    simp only [mapExcept] at h
    cases hfa : f a with
    | error e => rw [hfa] at h; exact absurd h (by simp)
    | ok b =>
      rw [hfa] at h
      cases hrec : mapExcept f as with
      | error e => rw [hrec] at h; exact absurd h (by simp)
      | ok bs =>
        rw [hrec] at h
        cases h
        cases k with
        | zero => simpa using hfa
        | succ k' =>
          have hk' : k' < as.length := by simpa using hk
          simpa using ih bs hrec k' hk'

theorem mapExcept_eq_ok_replicate {α β ε : Type} (f : α → Except ε β) (c : β) :
    ∀ (l : List α), (∀ a ∈ l, f a = .ok c) →
      mapExcept f l = .ok (List.replicate l.length c) := by
  intro l
  induction l with
  | nil => intro _; rfl
  | cons a as ih =>
    intro h
    simp only [mapExcept]
    rw [h a (List.mem_cons_self _ _), ih (fun x hx => h x (List.mem_cons_of_mem _ hx))]
    rfl

theorem getD_zero_of_all_zero : ∀ (l : List Nat), (∀ x ∈ l, x = 0) →
    ∀ k, l.getD k 0 = 0 := by
  intro l
  induction l with
  | nil => intro _ k; cases k <;> rfl
  | cons x xs ih =>
    intro h k
    cases k with
    | zero => exact h x (List.mem_cons_self _ _)
    | succ k' => exact ih (fun y hy => h y (List.mem_cons_of_mem _ hy)) k'

theorem wrapDec_eq (n i : Nat) (hn : 1 ≤ n) (hi : i < n) :
    wrapDec n i = (i + n - 1) % n := by
  unfold wrapDec
  split
  · subst ‹i = 0›
    rw [Nat.mod_eq_of_lt (by omega), Nat.zero_add]
  · have h1 : i + n - 1 = (i - 1) + n := by omega
    rw [h1, Nat.add_mod_right, Nat.mod_eq_of_lt (by omega)]

theorem wrapInc_eq (n i : Nat) (hi : i < n) :
    wrapInc n i = (i + 1) % n := by
  unfold wrapInc
  split
  · subst ‹i = n - 1›
    have h1 : n - 1 + 1 = n := by omega
    rw [h1, Nat.mod_self]
  · rw [Nat.mod_eq_of_lt (by omega)]

/-- Well-formedness of a board: the stored state has exactly `rows * cols`
cells and the index list is the full row-major grid. -/
def BoardWF (b : Board) : Prop :=
  b.states.length = b.dimensions.1 * b.dimensions.2 ∧
  b.indices = gridIndices b.dimensions.1 b.dimensions.2

theorem update_ok_elim (b b' : Board) (h : b.update = .ok b') :
    ∃ computed,
      mapExcept (fun p =>
        is_alive b.sks (b.states.getD (p.1 * b.dimensions.2 + p.2) 0)
          ((neighbourIndices b.dimensions.1 b.dimensions.2 p.1 p.2).map
            (fun q => b.states.getD (q.1 * b.dimensions.2 + q.2) 0)))
        b.indices = .ok computed ∧
      b' = { b with states := computed, new_states := b.states } := by
  have h' : (mapExcept (fun p =>
      is_alive b.sks (b.states.getD (p.1 * b.dimensions.2 + p.2) 0)
        ((neighbourIndices b.dimensions.1 b.dimensions.2 p.1 p.2).map
          (fun q => b.states.getD (q.1 * b.dimensions.2 + q.2) 0)))
      b.indices).map
      (fun computed => { b with states := computed, new_states := b.states }) = .ok b' := h
  cases hmap : mapExcept (fun p =>
      is_alive b.sks (b.states.getD (p.1 * b.dimensions.2 + p.2) 0)
        ((neighbourIndices b.dimensions.1 b.dimensions.2 p.1 p.2).map
          (fun q => b.states.getD (q.1 * b.dimensions.2 + q.2) 0)))
      b.indices with
  | error e => rw [hmap] at h'; exact absurd h' (by simp [Except.map])
  | ok computed =>
    rw [hmap] at h'
    simp only [Except.map] at h'
    cases h'
    exact ⟨computed, rfl, rfl⟩

theorem update_ok_shape (b b' : Board) (h : b.update = .ok b') :
    b'.dimensions = b.dimensions ∧ b'.indices = b.indices ∧ b'.sks = b.sks ∧
    b'.new_states = b.states ∧ b'.states.length = b.indices.length := by
  obtain ⟨computed, hmap, rfl⟩ := update_ok_elim b b' h
  exact ⟨rfl, rfl, rfl, rfl, mapExcept_ok_length _ _ _ hmap⟩

theorem update_ok_cell (b b' : Board) (h : b.update = .ok b')
    (hidx : b.indices = gridIndices b.dimensions.1 b.dimensions.2)
    (i j : Nat) (hi : i < b.dimensions.1) (hj : j < b.dimensions.2) :
    is_alive b.sks (b.states.getD (i * b.dimensions.2 + j) 0)
      ((neighbourIndices b.dimensions.1 b.dimensions.2 i j).map
        (fun q => b.states.getD (q.1 * b.dimensions.2 + q.2) 0)) =
    .ok (b'.states.getD (i * b.dimensions.2 + j) 0) := by
  obtain ⟨computed, hmap, rfl⟩ := update_ok_elim b b' h
  have hk : i * b.dimensions.2 + j < b.indices.length := by
    rw [hidx, gridIndices_length]
    exact flat_index_lt _ _ i j hi hj
  have hcell := mapExcept_ok_getD _ ((0 : Nat), (0 : Nat)) (0 : Nat)
    b.indices computed hmap (i * b.dimensions.2 + j) hk
  rw [hidx, gridIndices_getD_pair _ _ i j hi hj] at hcell
  exact hcell

theorem board_new_wf (n_cols : Nat) (states : List Nat) (sks : ServerKey)
    (hc : 0 < n_cols) (hdvd : n_cols ∣ states.length) :
    BoardWF (Board.new n_cols states sks) := by
  constructor
  · show states.length = states.length / n_cols * n_cols
    rw [Nat.div_mul_cancel hdvd]
  · rfl

theorem update_wf (b b' : Board) (hwf : BoardWF b) (h : b.update = .ok b') :
    BoardWF b' := by
  obtain ⟨hdim, hind, _, _, hlen⟩ := update_ok_shape b b' h
  constructor
  · rw [hlen, hdim, hwf.2, gridIndices_length]
  · rw [hind, hdim, hwf.2]

theorem updateN_wf : ∀ (N : Nat) (b b' : Board), BoardWF b →
    Board.updateN N b = .ok b' → BoardWF b' := by
  intro N
  induction N with
  | zero =>
    intro b b' hwf h
    simp only [Board.updateN] at h
    cases h
    exact hwf
  | succ n ih =>
    intro b b' hwf h
    simp only [Board.updateN] at h
    cases hupd : b.update with
    | error e => rw [hupd] at h; exact absurd h (by simp)
    | ok b1 =>
      rw [hupd] at h
      exact ih b1 b' (update_wf b b1 hwf hupd) h

theorem update_all_dead (b : Board) (hs : b.sks.supported)
    (hdead : ∀ x ∈ b.states, x = 0) :
    b.update = .ok { b with
      states := List.replicate b.indices.length 0,
      new_states := b.states } := by
  have hcells : ∀ p ∈ b.indices,
      is_alive b.sks (b.states.getD (p.1 * b.dimensions.2 + p.2) 0)
        ((neighbourIndices b.dimensions.1 b.dimensions.2 p.1 p.2).map
          (fun q => b.states.getD (q.1 * b.dimensions.2 + q.2) 0)) = .ok 0 := by
    intro p _
    have hget : ∀ k, b.states.getD k 0 = 0 := getD_zero_of_all_zero b.states hdead
    have hmap : (neighbourIndices b.dimensions.1 b.dimensions.2 p.1 p.2).map
        (fun q => b.states.getD (q.1 * b.dimensions.2 + q.2) 0) =
        List.replicate 8 0 := by
      have h8 : (neighbourIndices b.dimensions.1 b.dimensions.2 p.1 p.2).map
          (fun q => b.states.getD (q.1 * b.dimensions.2 + q.2) 0) =
          (neighbourIndices b.dimensions.1 b.dimensions.2 p.1 p.2).map
          (fun _ => 0) :=
        List.map_congr_left (fun q _ => hget _)
      rw [h8]
      rfl
    rw [hget, hmap]
    have h0 := is_alive_supported_eq b.sks 0 (List.replicate 8 0) hs
      (by omega) (by rw [show neighbourSum (List.replicate 8 0) = 0 from rfl]; omega)
    rw [h0]
    rfl
  have hmapped := mapExcept_eq_ok_replicate _ 0 b.indices hcells
  show (mapExcept _ b.indices).map _ = _
  rw [hmapped]
  rfl

theorem updateN_all_dead : ∀ (N : Nat) (b : Board), b.sks.supported →
    (∀ x ∈ b.states, x = 0) →
    ∃ b', Board.updateN N b = .ok b' ∧ b'.sks = b.sks ∧ ∀ x ∈ b'.states, x = 0 := by
  intro N
  induction N with
  | zero =>
    intro b hs hdead
    exact ⟨b, rfl, rfl, hdead⟩
  | succ n ih =>
    intro b hs hdead
    have hupd := update_all_dead b hs hdead
    obtain ⟨b', hN, hsks, hdead'⟩ := ih
      { b with
        states := List.replicate b.indices.length 0,
        new_states := b.states }
      hs (fun x hx => List.eq_of_mem_replicate hx)
    refine ⟨b', ?_, hsks, hdead'⟩
    simp only [Board.updateN]
    rw [hupd]
    exact hN

/-- `is_alive_5b` with adequate capacity: the `assert!` passes and the
function returns the fused-table result. -/
theorem is_alive_5b_ok_of_capacity (sks : ServerKey) (cell : Nat) (neighbours : List Nat)
    (h : 32 ≤ sks.message_modulus * sks.carry_modulus) :
    is_alive_5b sks cell neighbours =
      .ok (apply_lookup_table sks (lut_5b 16)
        (neighbourSum neighbours + scalar_mul cell 16)) := by
  unfold is_alive_5b
  rw [if_pos h]

/-! ## Concrete inputs used by the witnesses -/

def sk16 : ServerKey := ⟨16, 1⟩

def oneCellBoard : Board := Board.new 1 [0] sk16

def oneCellBoard' : Board := ⟨(1, 1), [0], [0], [(0, 0)], sk16⟩

def deadBoard : Board := Board.new 2 [0, 0, 0, 0] sk16

/-! ## Claims -/

/-- Claim C1: for every neighbour count in 0..8 (realized as 8 neighbour
ciphertexts with plaintexts in `{0,1}`) and every cell value in `{0,1}`,
the encrypted next-state computed by both `is_alive_4b` and `is_alive_5b`
decrypts to the plaintext rule `(count == 3) || (cell == 1 && count == 2)`,
on every parameter regime with enough plaintext capacity for the variant
(16 for the two-table variant, 32 for the packed variant). -/
theorem claim1_rule_correct (sks : ServerKey) (cell : Nat) (neighbours : List Nat)
    (hcell : cell ≤ 1) (hlen : neighbours.length = 8) (hnb : ∀ n ∈ neighbours, n ≤ 1) :
    (16 ≤ sks.capacity → 2 ≤ sks.message_modulus →
      decrypt sks (is_alive_4b sks cell neighbours) =
        lifeRule cell (neighbourSum neighbours)) ∧
    (32 ≤ sks.capacity → 2 ≤ sks.message_modulus →
      (is_alive_5b sks cell neighbours).map (decrypt sks) =
        .ok (lifeRule cell (neighbourSum neighbours))) := by
  have hsum : neighbourSum neighbours ≤ 8 := by
    have := neighbourSum_le_length neighbours hnb
    omega
  constructor
  · intro hcap hmsg
    rw [is_alive_4b_eq_lifeRule sks cell neighbours hcap hcell hsum]
    exact Nat.mod_eq_of_lt (Nat.lt_of_le_of_lt (lifeRule_le _ _) (by omega))
  · intro hcap hmsg
    rw [is_alive_5b_eq_lifeRule sks cell neighbours hcap hcell hsum]
    simp only [Except.map]
    rw [show decrypt sks (lifeRule cell (neighbourSum neighbours)) =
      lifeRule cell (neighbourSum neighbours) from
      Nat.mod_eq_of_lt (Nat.lt_of_le_of_lt (lifeRule_le _ _) (by omega))]

theorem claim1_rule_correct_witness :
    decrypt ⟨16, 2⟩ (is_alive_4b ⟨16, 2⟩ 1 [1, 1, 0, 0, 0, 0, 0, 0]) =
      lifeRule 1 (neighbourSum [1, 1, 0, 0, 0, 0, 0, 0]) ∧
    (is_alive_5b ⟨16, 2⟩ 1 [1, 1, 0, 0, 0, 0, 0, 0]).map (decrypt ⟨16, 2⟩) =
      .ok (lifeRule 1 (neighbourSum [1, 1, 0, 0, 0, 0, 0, 0])) :=
  ⟨(claim1_rule_correct ⟨16, 2⟩ 1 [1, 1, 0, 0, 0, 0, 0, 0]
      (by decide) (by decide) (by decide)).1 (by decide) (by decide),
   (claim1_rule_correct ⟨16, 2⟩ 1 [1, 1, 0, 0, 0, 0, 0, 0]
      (by decide) (by decide) (by decide)).2 (by decide) (by decide)⟩

/-- Claim C2: on every supported parameter regime, for every cell value in
`{0,1}` and every assignment of the 8 neighbour values in `{0,1}`, the
dispatcher `is_alive` (hence whichever of `is_alive_4b` / `is_alive_5b` it
selects) produces ciphertexts decrypting to the same boolean. -/
theorem claim2_strategies_agree (sks1 sks2 : ServerKey) (cell : Nat)
    (neighbours : List Nat) (h1 : sks1.supported) (h2 : sks2.supported)
    (hcell : cell ≤ 1) (hlen : neighbours.length = 8) (hnb : ∀ n ∈ neighbours, n ≤ 1) :
    (is_alive sks1 cell neighbours).map (decrypt sks1) =
      (is_alive sks2 cell neighbours).map (decrypt sks2) := by
  have hsum : neighbourSum neighbours ≤ 8 := by
    have := neighbourSum_le_length neighbours hnb
    omega
  have key : ∀ sks : ServerKey, sks.supported →
      (is_alive sks cell neighbours).map (decrypt sks) =
        .ok (lifeRule cell (neighbourSum neighbours)) := by
    intro sks hs
    rw [is_alive_supported_eq sks cell neighbours hs hcell hsum]
    simp only [Except.map]
    have hmsg := (supported_capacity sks hs).2
    rw [show decrypt sks (lifeRule cell (neighbourSum neighbours)) =
      lifeRule cell (neighbourSum neighbours) from
      Nat.mod_eq_of_lt (Nat.lt_of_le_of_lt (lifeRule_le _ _) (by omega))]
  rw [key sks1 h1, key sks2 h2]

theorem claim2_strategies_agree_witness :
    (is_alive ⟨16, 1⟩ 0 [1, 1, 1, 0, 0, 0, 0, 0]).map (decrypt ⟨16, 1⟩) =
      (is_alive ⟨32, 1⟩ 0 [1, 1, 1, 0, 0, 0, 0, 0]).map (decrypt ⟨32, 1⟩) :=
  claim2_strategies_agree ⟨16, 1⟩ ⟨32, 1⟩ 0 [1, 1, 1, 0, 0, 0, 0, 0]
    (by decide) (by decide) (by decide) (by decide) (by decide)

/-- Claim C3: for every board with `R ≥ 1` rows and `C ≥ 1` columns and every
cell `(i, j)`, `Board::update` gathers exactly the eight toroidally-wrapped
neighbour positions, the row index wrapping as `(i + R - 1) % R` and
`(i + 1) % R` and the column index analogously; in particular the corner
cell `(0,0)` counts `(R-1, C-1)` among its neighbours. -/
theorem claim3_neighbours_toroidal (R C i j : Nat) (hR : 1 ≤ R) (hC : 1 ≤ C)
    (hi : i < R) (hj : j < C) :
    neighbourIndices R C i j =
      [((i + R - 1) % R, (j + C - 1) % C), ((i + R - 1) % R, j),
       ((i + R - 1) % R, (j + 1) % C), (i, (j + C - 1) % C), (i, (j + 1) % C),
       ((i + 1) % R, (j + C - 1) % C), ((i + 1) % R, j),
       ((i + 1) % R, (j + 1) % C)] ∧
    (R - 1, C - 1) ∈ neighbourIndices R C 0 0 := by
  constructor
  · show [(wrapDec R i, wrapDec C j), (wrapDec R i, j), (wrapDec R i, wrapInc C j),
      (i, wrapDec C j), (i, wrapInc C j), (wrapInc R i, wrapDec C j),
      (wrapInc R i, j), (wrapInc R i, wrapInc C j)] = _
    rw [wrapDec_eq R i hR hi, wrapDec_eq C j hC hj, wrapInc_eq R i hi,
      wrapInc_eq C j hj]
  · exact List.Mem.head _

theorem claim3_neighbours_toroidal_witness :
    neighbourIndices 3 3 1 1 =
      [((1 + 3 - 1) % 3, (1 + 3 - 1) % 3), ((1 + 3 - 1) % 3, 1),
       ((1 + 3 - 1) % 3, (1 + 1) % 3), (1, (1 + 3 - 1) % 3), (1, (1 + 1) % 3),
       ((1 + 1) % 3, (1 + 3 - 1) % 3), ((1 + 1) % 3, 1),
       ((1 + 1) % 3, (1 + 1) % 3)] ∧
    (3 - 1, 3 - 1) ∈ neighbourIndices 3 3 0 0 :=
  claim3_neighbours_toroidal 3 3 1 1 (by decide) (by decide) (by decide) (by decide)

/-- Claim C4 counterexample: `Board::new` performs no divisibility check and
does not fail: on `columns = 2` and a 3-element initial sequence (3 % 2 ≠ 0)
it returns a fully formed board (rows = 3 / 2 = 1) with the sequence stored
untouched, instead of failing with `DimensionMismatch`. -/
theorem claim4_no_dimension_check_cex :
    ([0, 0, 0] : List Nat).length % 2 ≠ 0 ∧
    (Board.new 2 [0, 0, 0] ⟨16, 1⟩).dimensions = (1, 2) ∧
    (Board.new 2 [0, 0, 0] ⟨16, 1⟩).states = [0, 0, 0] :=
  ⟨by decide, rfl, rfl⟩

/-- Claim C4 (amended): `Board::new` never fails: for every positive column
count it returns a board with `rows = states.len() / columns` (truncating
division), the initial sequence stored unchanged, and an update index set
covering only the `rows * cols` cells — the trailing incomplete row is
silently excluded from updates rather than rejected. -/
theorem claim4_new_truncates (n_cols : Nat) (states : List Nat) (sks : ServerKey)
    (hc : 0 < n_cols) :
    (Board.new n_cols states sks).dimensions = (states.length / n_cols, n_cols) ∧
    (Board.new n_cols states sks).states = states ∧
    (Board.new n_cols states sks).indices.length =
      (states.length / n_cols) * n_cols := by
  refine ⟨rfl, rfl, ?_⟩
  show (gridIndices (states.length / n_cols) n_cols).length = _
  exact gridIndices_length _ _

theorem claim4_new_truncates_witness :
    (Board.new 2 [0, 0, 0] ⟨16, 1⟩).dimensions =
      (([0, 0, 0] : List Nat).length / 2, 2) ∧
    (Board.new 2 [0, 0, 0] ⟨16, 1⟩).states = [0, 0, 0] ∧
    (Board.new 2 [0, 0, 0] ⟨16, 1⟩).indices.length =
      (([0, 0, 0] : List Nat).length / 2) * 2 :=
  claim4_new_truncates 2 [0, 0, 0] ⟨16, 1⟩ (by decide)

/-- Claim C5 counterexample: a board freshly constructed by `Board::new`
with a length not divisible by the column count violates
`states.len() == rows * cols`: with `columns = 2` and 3 ciphertexts,
`states.len() = 3` but `rows * cols = 1 * 2 = 2`. -/
theorem claim5_invariant_cex :
    (Board.new 2 [0, 0, 0] ⟨16, 1⟩).states.length ≠
      (Board.new 2 [0, 0, 0] ⟨16, 1⟩).dimensions.1 *
        (Board.new 2 [0, 0, 0] ⟨16, 1⟩).dimensions.2 := by
  decide

/-- Claim C5 (amended): every board constructed by `Board::new` from an
initial sequence whose length IS divisible by the (positive) column count,
and transformed by any number of successful `update` calls, satisfies
`states.len() == rows * cols`. -/
theorem claim5_invariant (n_cols : Nat) (init : List Nat) (sks : ServerKey)
    (N : Nat) (b' : Board) (hc : 0 < n_cols) (hdvd : n_cols ∣ init.length)
    (h : Board.updateN N (Board.new n_cols init sks) = .ok b') :
    b'.states.length = b'.dimensions.1 * b'.dimensions.2 :=
  (updateN_wf N _ b' (board_new_wf n_cols init sks hc hdvd) h).1

theorem claim5_invariant_witness :
    (⟨(1, 1), [0], [0], [(0, 0)], sk16⟩ : Board).states.length =
      (⟨(1, 1), [0], [0], [(0, 0)], sk16⟩ : Board).dimensions.1 *
        (⟨(1, 1), [0], [0], [(0, 0)], sk16⟩ : Board).dimensions.2 :=
  claim5_invariant 1 [0] sk16 1 ⟨(1, 1), [0], [0], [(0, 0)], sk16⟩
    (by decide) (by decide) (by rfl)

/-- Claim C6: a successful `update` replaces the entire state in one swap
(the old generation-`n` buffer becomes `new_states`, wholesale), and the new
value of every cell `(i, j)` is obtained by running `is_alive` on the old
cell and its 8 old neighbours — generation-`n` values only, never freshly
computed generation-`n+1` values. -/
theorem claim6_update_from_old_generation (b b' : Board)
    (hidx : b.indices = gridIndices b.dimensions.1 b.dimensions.2)
    (hupd : b.update = .ok b') (i j : Nat)
    (hi : i < b.dimensions.1) (hj : j < b.dimensions.2) :
    b'.new_states = b.states ∧
    is_alive b.sks (b.states.getD (i * b.dimensions.2 + j) 0)
        ((neighbourIndices b.dimensions.1 b.dimensions.2 i j).map
          (fun q => b.states.getD (q.1 * b.dimensions.2 + q.2) 0)) =
      .ok (b'.states.getD (i * b.dimensions.2 + j) 0) :=
  ⟨(update_ok_shape b b' hupd).2.2.2.1, update_ok_cell b b' hupd hidx i j hi hj⟩

theorem claim6_update_from_old_generation_witness :
    oneCellBoard'.new_states = oneCellBoard.states ∧
    is_alive oneCellBoard.sks
        (oneCellBoard.states.getD (0 * oneCellBoard.dimensions.2 + 0) 0)
        ((neighbourIndices oneCellBoard.dimensions.1 oneCellBoard.dimensions.2 0 0).map
          (fun q => oneCellBoard.states.getD (q.1 * oneCellBoard.dimensions.2 + q.2) 0)) =
      .ok (oneCellBoard'.states.getD (0 * oneCellBoard.dimensions.2 + 0) 0) :=
  claim6_update_from_old_generation oneCellBoard oneCellBoard' (by rfl) (by rfl)
    0 0 (by decide) (by decide)

/-- Claim C7: a board on a supported regime whose cells are all dead
(plaintext 0, hence decrypting to 0) stays all-dead: applying `update`
`N` times succeeds and yields a board all of whose ciphertexts still
decrypt to 0. -/
theorem claim7_all_dead_stays_dead (b : Board) (N : Nat) (hs : b.sks.supported)
    (hdead : ∀ x ∈ b.states, x = 0) :
    ∃ b', Board.updateN N b = .ok b' ∧ ∀ x ∈ b'.states, decrypt b'.sks x = 0 := by
  obtain ⟨b', hN, hsks, hz⟩ := updateN_all_dead N b hs hdead
  refine ⟨b', hN, fun x hx => ?_⟩
  rw [hz x hx]
  simp [decrypt]

theorem claim7_all_dead_stays_dead_witness :
    ∃ b', Board.updateN 2 deadBoard = .ok b' ∧
      ∀ x ∈ b'.states, decrypt b'.sks x = 0 :=
  claim7_all_dead_stays_dead deadBoard 2 (by decide) (by decide)

/-- Claim C8: on the 6×6 board hard-coded in `main` (alive cells exactly
`{(0,0),(1,1),(1,2),(2,0),(2,1)}`), one `update` under `main`'s parameter
regime (`PARAM_MESSAGE_4_CARRY_1`, message modulus 16, carry modulus 2)
succeeds and decrypts to exactly one step of the independent plaintext
Game-of-Life rule with toroidal wraparound on that pattern. -/
theorem claim8_six_by_six_step :
    ((Board.new 6 initialPattern mainParams).update).map
        (fun b => b.states.map (decrypt mainParams)) =
      .ok (plainLifeStep 6 6 initialPattern) := by
  rfl

/-- Claim C9: every parameter regime with plaintext capacity below 9, and
more generally every regime outside the recognized set, makes `is_alive`
fail with the unsupported-regime panic at dispatch, before any ciphertext
operation is attempted (the error branch computes nothing). -/
theorem claim9_unsupported_regime (sks : ServerKey) (cell : Nat)
    (neighbours : List Nat) (h : sks.capacity < 9 ∨ ¬ sks.supported) :
    is_alive sks cell neighbours = .error .UnsupportedParameterRegime := by
  have hns : ¬ sks.supported := by
    rcases h with h | h
    · intro hsup
      have := (supported_capacity sks hsup).1
      omega
    · exact h
  obtain ⟨m, c⟩ := sks
  unfold is_alive
  split_ifs with h1 h2 h3 h4 h5
  · exact absurd (Or.inl (by rw [show m = 16 from h1.1, show c = 1 from h1.2])) hns
  · exact absurd (Or.inr (Or.inl
      (by rw [show m = 2 from h2.1, show c = 8 from h2.2]))) hns
  · exact absurd (Or.inr (Or.inr (Or.inl
      (by rw [show m = 2 from h3.1, show c = 16 from h3.2])))) hns
  · exact absurd (Or.inr (Or.inr (Or.inr (Or.inl
      (by rw [show m = 16 from h4.1, show c = 2 from h4.2]))))) hns
  · exact absurd (Or.inr (Or.inr (Or.inr (Or.inr
      (by rw [show m = 32 from h5.1, show c = 1 from h5.2]))))) hns
  · rfl

theorem claim9_unsupported_regime_witness :
    is_alive ⟨2, 2⟩ 0 [] = .error .UnsupportedParameterRegime :=
  claim9_unsupported_regime ⟨2, 2⟩ 0 [] (Or.inl (by decide))

/-- Claim C10: each of the three regimes the dispatcher routes to
`is_alive_5b` — (2,16), (16,2) and (32,1) — has
`message_modulus * carry_modulus ≥ 32`, so on those regimes `is_alive`
reaches `is_alive_5b` and the `assert!` at its start holds: the
assertion-failure branch is unreachable through `is_alive`. -/
theorem claim10_routed_5b_assertion (sks : ServerKey) (cell : Nat)
    (neighbours : List Nat)
    (h : sks = ⟨2, 16⟩ ∨ sks = ⟨16, 2⟩ ∨ sks = ⟨32, 1⟩) :
    32 ≤ sks.message_modulus * sks.carry_modulus ∧
    is_alive sks cell neighbours = is_alive_5b sks cell neighbours ∧
    is_alive_5b sks cell neighbours ≠ .error .AssertionFailed := by
  rcases h with rfl | rfl | rfl <;>
    refine ⟨by decide, by rfl, ?_⟩ <;>
    rw [is_alive_5b_ok_of_capacity _ _ _ (by decide)] <;>
    simp

theorem claim10_routed_5b_assertion_witness :
    32 ≤ (ServerKey.mk 2 16).message_modulus * (ServerKey.mk 2 16).carry_modulus ∧
    is_alive ⟨2, 16⟩ 0 [] = is_alive_5b ⟨2, 16⟩ 0 [] ∧
    is_alive_5b ⟨2, 16⟩ 0 [] ≠ .error .AssertionFailed :=
  claim10_routed_5b_assertion ⟨2, 16⟩ 0 [] (Or.inl rfl)
